import Mathlib

/-!
Shallow embedding of `video_translation_client.py` / `models.py`: an
asynchronous status-polling client with exponential backoff, jitter, a
wall-clock deadline and an attempt cap.

The network and the clock are modelled as an explicit environment: each
polling iteration consumes one `FetchStep`, which records the transport
outcome of that HTTP request, the wall-clock duration of the fetch call,
and the fractional clock value `time % 1` read by the jitter computation.
The loop is a pure function from the environment to a `RunOutcome`: the
Python function's result (returned response / raised exception) together
with the trace of observable events (fetches, callback invocations,
sleeps).  Rationals stand in for Python floats.
-/

namespace VideoTranslation

/-- `JobStatus` from `models.py`: enumeration {pending, completed, error}. -/
inductive JobStatus
  | pending
  | completed
  | error
deriving DecidableEq, Repr

/-- `JobStatus(s)` in Python: parse a string into the enum; an unknown
string raises `ValueError` (modelled by `none` here, turned into the
error by the caller). -/
def JobStatus.ofString : String → Option JobStatus
  | "pending" => some .pending
  | "completed" => some .completed
  | "error" => some .error
  | _ => none

/-- `StatusResponse` from `models.py`.  `raw_response` is the decoded
payload; we keep only its `result` field, the single field the client
reads. -/
structure StatusResponse where
  status : JobStatus
  raw_response : Option String
  elapsed_time : ℚ
deriving DecidableEq, Repr

/-- `StatusPollingConfig` from `models.py`, with its default values. -/
structure StatusPollingConfig where
  initial_delay : ℚ := 1
  max_delay : ℚ := 32
  backoff_factor : ℚ := 2
  max_attempts : ℕ := 10
  timeout : ℚ := 300
  jitter : Bool := true
deriving DecidableEq, Repr

/-- The Python exceptions that can cross `poll_until_complete`'s frame:
`aiohttp.ClientConnectionError` and `aiohttp.ClientResponseError` (both
subclasses of `aiohttp.ClientError`), `KeyError` from `data["result"]`,
`ValueError` from `JobStatus(...)` on an unknown status string (neither
is an `aiohttp.ClientError`), and `TimeoutError` carrying the configured
timeout value. -/
inductive PyError
  | clientConnectionError
  | clientResponseError
  | keyError
  | valueError (s : String)
  | timeoutError (t : ℚ)
deriving DecidableEq, Repr

/-- Which exceptions are instances of `aiohttp.ClientError` (the class
caught by the `except` clause of the polling loop). -/
def PyError.isClientError : PyError → Bool
  | .clientConnectionError => true
  | .clientResponseError => true
  | _ => false

/-- Which exceptions are instances of `aiohttp.ClientConnectionError`. -/
def PyError.isClientConnectionError : PyError → Bool
  | .clientConnectionError => true
  | _ => false

/-- Outcome of the HTTP transport for one request: the connection fails,
or a response arrives with an HTTP success flag (2xx or not) and the
body's `result` field (`none` models a body without that field). -/
inductive TransportResult
  | connFailure
  | response (httpOk : Bool) (result : Option String)
deriving DecidableEq, Repr

/-- One step of the environment, consumed by one fetch: the transport
outcome, the wall-clock duration of the fetch call, and the fractional
clock value (`time % 1`, in `[0, 1)`) read by the jitter computation of
the sleep that may follow this fetch. -/
structure FetchStep where
  transport : TransportResult
  duration : ℚ
  jitterFrac : ℚ
deriving DecidableEq, Repr

/-- `_get_status_once`: perform one status request.  `raise_for_status`
raises `ClientResponseError` on a non-2xx status; a body without a
`result` field raises `KeyError`; an unknown status string raises
`ValueError`; otherwise a `StatusResponse` is built whose
`elapsed_time` is the duration of the call. -/
def _get_status_once (step : FetchStep) : Except PyError StatusResponse :=
  match step.transport with
  | .connFailure => .error .clientConnectionError
  | .response httpOk result =>
      if httpOk then
        match result with
        | none => .error .keyError
        | some s =>
            match JobStatus.ofString s with
            | none => .error (.valueError s)
            | some st =>
                .ok { status := st, raw_response := some s, elapsed_time := step.duration }
      else .error .clientResponseError

/-- `_calculate_delay`: `delay = min(initial_delay * backoff_factor**attempt,
max_delay)`; if jitter is enabled, `delay *= 1 + 0.2 * (time % 1)` where
the fractional clock value `time % 1` is the supplied `jfrac`. -/
def _calculate_delay (cfg : StatusPollingConfig) (attempt : ℕ) (jfrac : ℚ) : ℚ :=
  let delay := min (cfg.initial_delay * cfg.backoff_factor ^ attempt) cfg.max_delay
  if cfg.jitter then delay * (1 + (1 / 5) * jfrac) else delay

instance : DecidableEq (Except PyError StatusResponse) := fun a b =>
  match a, b with
  | .ok r, .ok r' => if h : r = r' then .isTrue (by rw [h]) else .isFalse (by simp [h])
  | .error e, .error e' => if h : e = e' then .isTrue (by rw [h]) else .isFalse (by simp [h])
  | .ok _, .error _ => .isFalse (by simp)
  | .error _, .ok _ => .isFalse (by simp)

/-- Observable events of one `poll_until_complete` run, in order:
a fetch with its outcome, an invocation of the user callback with the
response passed to it, a sleep with the delay slept. -/
inductive Event
  | fetched (r : Except PyError StatusResponse)
  | callback (r : StatusResponse)
  | slept (d : ℚ)
deriving DecidableEq, Repr

/-- `_handle_status_change`: invoke the callback iff the status differs
from the last observed one and a callback is set; as a trace fragment. -/
def _handle_status_change (hasCallback : Bool) (r : StatusResponse)
    (last_status : Option JobStatus) : List Event :=
  if last_status ≠ some r.status ∧ hasCallback = true then [.callback r] else []

/-- How `poll_until_complete` ends: a normal return of a response, or a
raised exception. -/
inductive PollResult
  | returned (r : StatusResponse)
  | raised (e : PyError)
deriving DecidableEq, Repr

/-- Result of a run: how it ended, plus the event trace. -/
structure RunOutcome where
  result : PollResult
  events : List Event
deriving DecidableEq, Repr

/-- The `while` loop of `poll_until_complete`.  `deadline` is the
`timeout` local (start time + configured timeout); `now` the current
clock; `attempt` and `last_status` the loop locals.  Each iteration
consumes one `FetchStep`; `none` means the supplied finite environment
was exhausted while the loop still wanted to poll (a modelling artifact,
never a behaviour of the code).  Time advances by the fetch duration and
by the delay slept. -/
def pollLoop (cfg : StatusPollingConfig) (hasCallback : Bool) (deadline : ℚ) :
    List FetchStep → ℚ → ℕ → Option JobStatus → Option RunOutcome
  | [], now, attempt, _ =>
      if now < deadline ∧ attempt < cfg.max_attempts then none
      else some ⟨.raised (.timeoutError cfg.timeout), []⟩
  | step :: rest, now, attempt, last_status =>
      if now < deadline ∧ attempt < cfg.max_attempts then
        match _get_status_once step with
        | .ok r =>
            let cbEvents := _handle_status_change hasCallback r last_status
            if r.status = .completed ∨ r.status = .error then
              some ⟨.returned r, .fetched (.ok r) :: cbEvents⟩
            else
              let d := _calculate_delay cfg (attempt + 1) step.jitterFrac
              match pollLoop cfg hasCallback deadline rest
                  (now + step.duration + d) (attempt + 1) (some r.status) with
              | none => none
              | some out =>
                  some ⟨out.result, .fetched (.ok r) :: (cbEvents ++ .slept d :: out.events)⟩
        | .error e =>
            if e.isClientError then
              if e.isClientConnectionError then
                some ⟨.raised e, [.fetched (.error e)]⟩
              else
                let d := _calculate_delay cfg attempt step.jitterFrac
                match pollLoop cfg hasCallback deadline rest
                    (now + step.duration + d) (attempt + 1) last_status with
                | none => none
                | some out =>
                    some ⟨out.result, .fetched (.error e) :: .slept d :: out.events⟩
            else
              some ⟨.raised e, [.fetched (.error e)]⟩
      else
        some ⟨.raised (.timeoutError cfg.timeout), []⟩

/-- `poll_until_complete`: the deadline is computed once from the clock
at entry; `attempt` starts at 0 and `last_status` at `None`. -/
def poll_until_complete (cfg : StatusPollingConfig) (hasCallback : Bool)
    (env : List FetchStep) (start : ℚ) : Option RunOutcome :=
  pollLoop cfg hasCallback (start + cfg.timeout) env start 0 none

/-- Number of fetches performed in a trace. -/
def fetchCount (evs : List Event) : ℕ :=
  (evs.filter fun e => match e with | .fetched _ => true | _ => false).length

/-- The responses passed to the user callback, in invocation order. -/
def callbackResponses (evs : List Event) : List StatusResponse :=
  evs.filterMap fun e => match e with | .callback r => some r | _ => none

/-- The delays slept, in order. -/
def sleepDelays (evs : List Event) : List ℚ :=
  evs.filterMap fun e => match e with | .slept d => some d | _ => none

/-- A fetch event whose outcome sends the loop around again: a successful
fetch reporting `pending`, or a retryable (`ClientError` but not
`ClientConnectionError`) failure. -/
def Event.isRetryFetch : Event → Bool
  | .fetched (.ok r) => r.status = JobStatus.pending
  | .fetched (.error e) => e.isClientError && !e.isClientConnectionError
  | _ => false

/-- The environment step yields a successful fetch reporting `pending`. -/
def stepPending (step : FetchStep) : Prop :=
  ∃ r, _get_status_once step = .ok r ∧ r.status = .pending

/-- The environment step yields a retryable protocol failure. -/
def stepRetryable (step : FetchStep) : Prop :=
  ∃ e, _get_status_once step = .error e ∧
    e.isClientError = true ∧ e.isClientConnectionError = false

/-- The wall-clock budget admits one fetch per listed step: before each
fetch the clock (advanced by fetch durations and the backoff delays the
pending path would sleep) is still below the deadline, and once more
after the last listed step. -/
def timeBudgetOK (cfg : StatusPollingConfig) (deadline : ℚ) :
    List FetchStep → ℚ → ℕ → Bool
  | [], now, _ => decide (now < deadline)
  | step :: rest, now, attempt =>
      decide (now < deadline) &&
        timeBudgetOK cfg deadline rest
          (now + step.duration + _calculate_delay cfg (attempt + 1) step.jitterFrac)
          (attempt + 1)

/-! ### Helper lemmas about the trace combinators -/

lemma get_status_once_err (step : FetchStep) (e : PyError)
    (h : _get_status_once step = .error e) :
    e = .clientConnectionError ∨ e = .clientResponseError ∨ e = .keyError ∨
      ∃ s, e = .valueError s := by
  unfold _get_status_once at h
  split at h
  · cases h; exact Or.inl rfl
  · split at h
    · split at h
      · cases h; exact Or.inr (Or.inr (Or.inl rfl))
      · split at h
        · cases h
          exact Or.inr (Or.inr (Or.inr ⟨_, rfl⟩))
        · cases h
    · cases h; exact Or.inr (Or.inl rfl)

lemma get_status_once_no_timeout (step : FetchStep) (e : PyError) (q : ℚ)
    (h : _get_status_once step = .error e) : e ≠ .timeoutError q := by
  rcases get_status_once_err step e h with h1 | h1 | h1 | ⟨s, h1⟩ <;> subst h1 <;> simp

lemma mem_handle_status_change {cb : Bool} {r : StatusResponse}
    {ls : Option JobStatus} {e : Event} (h : e ∈ _handle_status_change cb r ls) :
    e = .callback r := by
  unfold _handle_status_change at h
  split at h
  · simpa using h
  · simp at h

lemma handle_status_change_cases (cb : Bool) (r : StatusResponse) (ls : Option JobStatus) :
    _handle_status_change cb r ls = [] ∨ _handle_status_change cb r ls = [.callback r] := by
  unfold _handle_status_change
  split
  · exact Or.inr rfl
  · exact Or.inl rfl

lemma fetchCount_append (a b : List Event) :
    fetchCount (a ++ b) = fetchCount a + fetchCount b := by
  simp [fetchCount, List.filter_append]

lemma sleepDelays_append (a b : List Event) :
    sleepDelays (a ++ b) = sleepDelays a ++ sleepDelays b := by
  simp [sleepDelays, List.filterMap_append]

lemma callbackResponses_append (a b : List Event) :
    callbackResponses (a ++ b) = callbackResponses a ++ callbackResponses b := by
  simp [callbackResponses, List.filterMap_append]

lemma fetchCount_handle_status_change (cb : Bool) (r : StatusResponse)
    (ls : Option JobStatus) : fetchCount (_handle_status_change cb r ls) = 0 := by
  rcases handle_status_change_cases cb r ls with h | h <;> rw [h] <;> simp [fetchCount]

lemma sleepDelays_handle_status_change (cb : Bool) (r : StatusResponse)
    (ls : Option JobStatus) : sleepDelays (_handle_status_change cb r ls) = [] := by
  rcases handle_status_change_cases cb r ls with h | h <;> rw [h] <;> simp [sleepDelays]

/-! ### C1: a terminal status is returned, not raised -/

lemma pollLoop_terminal_fetch (cfg : StatusPollingConfig) (cb : Bool) (dl : ℚ) :
    ∀ (env : List FetchStep) (now : ℚ) (attempt : ℕ) (ls : Option JobStatus)
      (out : RunOutcome) (r : StatusResponse),
      pollLoop cfg cb dl env now attempt ls = some out →
      Event.fetched (.ok r) ∈ out.events →
      (r.status = .completed ∨ r.status = .error) →
      out.result = .returned r := by
  intro env
  induction env with
  | nil =>
      intro now attempt ls out r h hmem _
      rw [pollLoop] at h
      split at h
      · cases h
      · cases h; simp at hmem
  | cons step rest ih =>
      intro now attempt ls out r h hmem hterm
      rw [pollLoop] at h
      split at h
      · cases hget : _get_status_once step with
        | ok r' =>
            rw [hget] at h
            simp only at h
            by_cases hst : r'.status = .completed ∨ r'.status = .error
            · rw [if_pos hst] at h
              cases h
              simp only at hmem
              rcases List.mem_cons.mp hmem with heq | hmem'
              · obtain rfl : r = r' := by
                  injection heq with h1; injection h1
                rfl
              · exact absurd (mem_handle_status_change hmem') (by simp)
            · rw [if_neg hst] at h
              cases hrec : pollLoop cfg cb dl rest
                  (now + step.duration + _calculate_delay cfg (attempt + 1) step.jitterFrac)
                  (attempt + 1) (some r'.status) with
              | none => rw [hrec] at h; cases h
              | some out' =>
                  rw [hrec] at h
                  cases h
                  simp only at hmem
                  rcases List.mem_cons.mp hmem with heq | hmem'
                  · obtain rfl : r = r' := by
                      injection heq with h1; injection h1
                    exact absurd hterm (by tauto)
                  · rcases List.mem_append.mp hmem' with hcb | htail
                    · exact absurd (mem_handle_status_change hcb) (by simp)
                    · rcases List.mem_cons.mp htail with heq | htail'
                      · cases heq
                      · exact ih _ _ _ out' r hrec htail' hterm
        | error e =>
            rw [hget] at h
            simp only at h
            by_cases hce : e.isClientError = true
            · rw [if_pos hce] at h
              by_cases hconn : e.isClientConnectionError = true
              · rw [if_pos hconn] at h
                cases h
                simp only [List.mem_singleton] at hmem
                cases hmem
              · rw [if_neg hconn] at h
                cases hrec : pollLoop cfg cb dl rest
                    (now + step.duration + _calculate_delay cfg attempt step.jitterFrac)
                    (attempt + 1) ls with
                | none => rw [hrec] at h; cases h
                | some out' =>
                    rw [hrec] at h
                    cases h
                    simp only at hmem
                    rcases List.mem_cons.mp hmem with heq | hmem'
                    · cases heq
                    · rcases List.mem_cons.mp hmem' with heq | htail
                      · cases heq
                      · exact ih _ _ _ out' r hrec htail hterm
            · rw [if_neg hce] at h
              cases h
              simp only [List.mem_singleton] at hmem
              cases hmem
      · cases h; simp at hmem

/-- C1: if any fetch performed by `poll_until_complete` returns a
`StatusResponse` whose status is `completed` or `error`, the run ends by
returning that response normally — a remote `error` status is never
converted into a locally raised exception. -/
theorem poll_returns_terminal_status (cfg : StatusPollingConfig) (cb : Bool)
    (env : List FetchStep) (start : ℚ) (out : RunOutcome) (r : StatusResponse)
    (h : poll_until_complete cfg cb env start = some out)
    (hmem : Event.fetched (.ok r) ∈ out.events)
    (hterm : r.status = .completed ∨ r.status = .error) :
    out.result = .returned r :=
  pollLoop_terminal_fetch cfg cb (start + cfg.timeout) env start 0 none out r h hmem hterm

/-! ### Concrete fixtures used by witnesses -/

def cfgW : StatusPollingConfig :=
  { initial_delay := 1, max_delay := 4, backoff_factor := 2,
    max_attempts := 3, timeout := 100, jitter := false }

def stepPendingW : FetchStep := ⟨.response true (some "pending"), 1, 0⟩
def stepCompletedW : FetchStep := ⟨.response true (some "completed"), 1, 0⟩
def stepErrorW : FetchStep := ⟨.response true (some "error"), 1, 0⟩
def stepUnknownW : FetchStep := ⟨.response true (some "translating"), 1, 0⟩
def stepConnFailW : FetchStep := ⟨.connFailure, 1, 0⟩
def stepBadHttpW : FetchStep := ⟨.response false none, 1, 0⟩

def rErrW : StatusResponse := ⟨.error, some "error", 1⟩
def outErrW : RunOutcome := ⟨.returned rErrW, [.fetched (.ok rErrW), .callback rErrW]⟩

/-- Witness for C1: a first fetch reporting `error` is returned normally. -/
theorem poll_returns_terminal_status_witness :
    poll_until_complete cfgW true [stepErrorW] 0 = some outErrW ∧
    Event.fetched (.ok rErrW) ∈ outErrW.events ∧
    (rErrW.status = .completed ∨ rErrW.status = .error) ∧
    outErrW.result = .returned rErrW :=
  ⟨by norm_num +decide [poll_until_complete, pollLoop, _get_status_once, JobStatus.ofString,
      _handle_status_change, _calculate_delay, cfgW, stepErrorW, rErrW, outErrW],
   by decide, by decide,
    poll_returns_terminal_status cfgW true [stepErrorW] 0 outErrW rErrW
      (by norm_num +decide [poll_until_complete, pollLoop, _get_status_once, JobStatus.ofString,
        _handle_status_change, _calculate_delay, cfgW, stepErrorW, rErrW, outErrW])
      (by decide) (by decide)⟩

/-! ### C4/C5: non-retried failures end the run at once -/

lemma pollLoop_fatal_fetch (cfg : StatusPollingConfig) (cb : Bool) (dl : ℚ) :
    ∀ (env : List FetchStep) (now : ℚ) (attempt : ℕ) (ls : Option JobStatus)
      (out : RunOutcome) (e : PyError),
      pollLoop cfg cb dl env now attempt ls = some out →
      Event.fetched (.error e) ∈ out.events →
      (e.isClientError = false ∨ e.isClientConnectionError = true) →
      out.result = .raised e ∧
        ∃ pre, out.events = pre ++ [.fetched (.error e)] := by
  intro env
  induction env with
  | nil =>
      intro now attempt ls out e h hmem _
      rw [pollLoop] at h
      split at h
      · cases h
      · cases h; simp at hmem
  | cons step rest ih =>
      intro now attempt ls out e h hmem hclass
      rw [pollLoop] at h
      split at h
      · cases hget : _get_status_once step with
        | ok r' =>
            rw [hget] at h
            simp only at h
            by_cases hst : r'.status = .completed ∨ r'.status = .error
            · rw [if_pos hst] at h
              cases h
              simp only at hmem
              rcases List.mem_cons.mp hmem with heq | hmem'
              · cases heq
              · exact absurd (mem_handle_status_change hmem') (by simp)
            · rw [if_neg hst] at h
              cases hrec : pollLoop cfg cb dl rest
                  (now + step.duration + _calculate_delay cfg (attempt + 1) step.jitterFrac)
                  (attempt + 1) (some r'.status) with
              | none => rw [hrec] at h; cases h
              | some out' =>
                  rw [hrec] at h
                  cases h
                  simp only at hmem
                  rcases List.mem_cons.mp hmem with heq | hmem'
                  · cases heq
                  · rcases List.mem_append.mp hmem' with hcb | htail
                    · exact absurd (mem_handle_status_change hcb) (by simp)
                    · rcases List.mem_cons.mp htail with heq | htail'
                      · cases heq
                      · obtain ⟨hres, pre, hpre⟩ := ih _ _ _ out' e hrec htail' hclass
                        refine ⟨hres, .fetched (.ok r') ::
                          (_handle_status_change cb r' ls ++
                            .slept (_calculate_delay cfg (attempt + 1) step.jitterFrac) :: pre), ?_⟩
                        simp [hpre]
        | error e' =>
            rw [hget] at h
            simp only at h
            by_cases hce : e'.isClientError = true
            · rw [if_pos hce] at h
              by_cases hconn : e'.isClientConnectionError = true
              · rw [if_pos hconn] at h
                cases h
                simp only [List.mem_singleton] at hmem
                obtain rfl : e = e' := by injection hmem with h1; injection h1
                exact ⟨rfl, [], rfl⟩
              · rw [if_neg hconn] at h
                cases hrec : pollLoop cfg cb dl rest
                    (now + step.duration + _calculate_delay cfg attempt step.jitterFrac)
                    (attempt + 1) ls with
                | none => rw [hrec] at h; cases h
                | some out' =>
                    rw [hrec] at h
                    cases h
                    simp only at hmem
                    rcases List.mem_cons.mp hmem with heq | hmem'
                    · obtain rfl : e = e' := by injection heq with h1; injection h1
                      rcases hclass with hc | hc
                      · exact absurd hce (by simp [hc])
                      · exact absurd hc hconn
                    · rcases List.mem_cons.mp hmem' with heq | htail
                      · cases heq
                      · obtain ⟨hres, pre, hpre⟩ := ih _ _ _ out' e hrec htail hclass
                        refine ⟨hres, .fetched (.error e') ::
                          .slept (_calculate_delay cfg attempt step.jitterFrac) :: pre, ?_⟩
                        simp [hpre]
            · rw [if_neg hce] at h
              cases h
              simp only [List.mem_singleton] at hmem
              obtain rfl : e = e' := by injection hmem with h1; injection h1
              exact ⟨rfl, [], rfl⟩
      · cases h; simp at hmem

/-- C4 counterexample: with an unknown status string in the body, the
fetch raises `ValueError`, which is not an `aiohttp.ClientError`; the
run ends at once — one fetch, no backoff sleep, no retry reaching the
`completed` step that follows — instead of being absorbed into the
retry loop as the claim states. -/
theorem unknown_status_not_retried_counterexample :
    poll_until_complete cfgW true [stepUnknownW, stepCompletedW] 0 =
      some ⟨.raised (.valueError "translating"),
        [.fetched (.error (.valueError "translating"))]⟩ ∧
    (PyError.valueError "translating").isClientError = false ∧
    fetchCount [.fetched (.error (.valueError "translating"))] = 1 ∧
    sleepDelays [.fetched (.error (.valueError "translating"))] = [] := by
  refine ⟨by norm_num +decide [poll_until_complete, pollLoop, _get_status_once, JobStatus.ofString,
      _handle_status_change, _calculate_delay, cfgW, stepUnknownW, stepCompletedW], rfl, by decide, by decide⟩

/-- C4 amended: an unknown status value makes the fetch fail with a
`ValueError` which is NOT an `aiohttp.ClientError`; `poll_until_complete`
does not absorb it into the retry loop: the error propagates to the
caller immediately, with no backoff wait and no further fetch. -/
theorem unknown_status_propagates (cfg : StatusPollingConfig) (cb : Bool)
    (env : List FetchStep) (start : ℚ) (out : RunOutcome) (s : String)
    (h : poll_until_complete cfg cb env start = some out)
    (hmem : Event.fetched (.error (.valueError s)) ∈ out.events) :
    (PyError.valueError s).isClientError = false ∧
    out.result = .raised (.valueError s) ∧
    ∃ pre, out.events = pre ++ [.fetched (.error (.valueError s))] := by
  refine ⟨rfl, ?_⟩
  exact pollLoop_fatal_fetch cfg cb (start + cfg.timeout) env start 0 none out
    (.valueError s) h hmem (Or.inl rfl)

/-- Witness for the amended C4. -/
theorem unknown_status_propagates_witness :
    poll_until_complete cfgW true [stepUnknownW, stepCompletedW] 0 =
      some ⟨.raised (.valueError "translating"),
        [.fetched (.error (.valueError "translating"))]⟩ ∧
    (PyError.valueError "translating").isClientError = false ∧
    RunOutcome.result ⟨.raised (.valueError "translating"),
        [.fetched (.error (.valueError "translating"))]⟩ =
      .raised (.valueError "translating") ∧
    ∃ pre, RunOutcome.events ⟨.raised (.valueError "translating"),
        [.fetched (.error (.valueError "translating"))]⟩ =
      pre ++ [.fetched (.error (.valueError "translating"))] := by
  refine ⟨by norm_num +decide [poll_until_complete, pollLoop, _get_status_once, JobStatus.ofString,
      _handle_status_change, _calculate_delay, cfgW, stepUnknownW, stepCompletedW], ?_⟩
  have := unknown_status_propagates cfgW true [stepUnknownW, stepCompletedW] 0
    ⟨.raised (.valueError "translating"),
      [.fetched (.error (.valueError "translating"))]⟩ "translating"
    (by norm_num +decide [poll_until_complete, pollLoop, _get_status_once, JobStatus.ofString,
      _handle_status_change, _calculate_delay, cfgW, stepUnknownW, stepCompletedW]) (by decide)
  exact this

/-- C5: a `ClientConnectionError` (Fatal-Connection) failure propagates
to the caller immediately: the run raises it, and the failing fetch is
the final event — no backoff sleep is performed and no further fetch is
attempted. -/
theorem connection_error_aborts (cfg : StatusPollingConfig) (cb : Bool)
    (env : List FetchStep) (start : ℚ) (out : RunOutcome)
    (h : poll_until_complete cfg cb env start = some out)
    (hmem : Event.fetched (.error .clientConnectionError) ∈ out.events) :
    out.result = .raised .clientConnectionError ∧
    ∃ pre, out.events = pre ++ [.fetched (.error .clientConnectionError)] :=
  pollLoop_fatal_fetch cfg cb (start + cfg.timeout) env start 0 none out
    .clientConnectionError h hmem (Or.inr rfl)

/-- Witness for C5. -/
theorem connection_error_aborts_witness :
    poll_until_complete cfgW true [stepConnFailW, stepCompletedW] 0 =
      some ⟨.raised .clientConnectionError,
        [.fetched (.error .clientConnectionError)]⟩ ∧
    RunOutcome.result ⟨.raised .clientConnectionError,
        [.fetched (.error .clientConnectionError)]⟩ =
      .raised .clientConnectionError ∧
    ∃ pre, RunOutcome.events ⟨.raised .clientConnectionError,
        [.fetched (.error .clientConnectionError)]⟩ =
      pre ++ [.fetched (.error .clientConnectionError)] := by
  refine ⟨by norm_num +decide [poll_until_complete, pollLoop, _get_status_once, JobStatus.ofString,
      _handle_status_change, _calculate_delay, cfgW, stepConnFailW, stepCompletedW], ?_⟩
  exact connection_error_aborts cfgW true [stepConnFailW, stepCompletedW] 0
    ⟨.raised .clientConnectionError, [.fetched (.error .clientConnectionError)]⟩
    (by norm_num +decide [poll_until_complete, pollLoop, _get_status_once, JobStatus.ofString,
      _handle_status_change, _calculate_delay, cfgW, stepConnFailW, stepCompletedW]) (by decide)

/-! ### C3/C7: the backoff delay computation -/

lemma base_delay_nonneg (cfg : StatusPollingConfig)
    (h0 : 0 ≤ cfg.initial_delay) (h1 : cfg.initial_delay ≤ cfg.max_delay)
    (h2 : 1 ≤ cfg.backoff_factor) (attempt : ℕ) :
    0 ≤ min (cfg.initial_delay * cfg.backoff_factor ^ attempt) cfg.max_delay :=
  le_min (mul_nonneg h0 (pow_nonneg (zero_le_one.trans h2) _)) (h0.trans h1)

lemma calculate_delay_lower (cfg : StatusPollingConfig)
    (h0 : 0 ≤ cfg.initial_delay) (h1 : cfg.initial_delay ≤ cfg.max_delay)
    (h2 : 1 ≤ cfg.backoff_factor) (attempt : ℕ) (j : ℚ) (hj0 : 0 ≤ j) :
    min (cfg.initial_delay * cfg.backoff_factor ^ attempt) cfg.max_delay ≤
      _calculate_delay cfg attempt j := by
  unfold _calculate_delay
  split
  · exact le_mul_of_one_le_right (base_delay_nonneg cfg h0 h1 h2 attempt) (by linarith)
  · exact le_refl _

lemma calculate_delay_upper (cfg : StatusPollingConfig)
    (h0 : 0 ≤ cfg.initial_delay) (h1 : cfg.initial_delay ≤ cfg.max_delay)
    (h2 : 1 ≤ cfg.backoff_factor) (attempt : ℕ) (j : ℚ) (hj0 : 0 ≤ j) (hj1 : j < 1) :
    _calculate_delay cfg attempt j ≤
      min (cfg.initial_delay * cfg.backoff_factor ^ attempt) cfg.max_delay * (6 / 5) := by
  unfold _calculate_delay
  split
  · exact mul_le_mul_of_nonneg_left (by linarith) (base_delay_nonneg cfg h0 h1 h2 attempt)
  · exact le_mul_of_one_le_right (base_delay_nonneg cfg h0 h1 h2 attempt) (by norm_num)

lemma base_delay_mono (cfg : StatusPollingConfig)
    (h0 : 0 ≤ cfg.initial_delay) (h2 : 1 ≤ cfg.backoff_factor)
    {i j : ℕ} (hij : i ≤ j) :
    min (cfg.initial_delay * cfg.backoff_factor ^ i) cfg.max_delay ≤
      min (cfg.initial_delay * cfg.backoff_factor ^ j) cfg.max_delay :=
  min_le_min (mul_le_mul_of_nonneg_left (pow_le_pow_right₀ h2 hij) h0) (le_refl _)

/-- C3: under the §3 configuration constraints, `_calculate_delay` equals
`min(initial_delay * backoff_factor^attempt, max_delay)` when jitter is
off; with jitter on it is that base value times a factor in `[1, 1.2)`,
so the delay is never negative, never below the base value, and never
above `max_delay * 1.2`. -/
theorem calculate_delay_formula (cfg : StatusPollingConfig) (attempt : ℕ) (j : ℚ)
    (h0 : 0 ≤ cfg.initial_delay) (h1 : cfg.initial_delay ≤ cfg.max_delay)
    (h2 : 1 ≤ cfg.backoff_factor) (hj0 : 0 ≤ j) (hj1 : j < 1) :
    (cfg.jitter = false →
      _calculate_delay cfg attempt j =
        min (cfg.initial_delay * cfg.backoff_factor ^ attempt) cfg.max_delay) ∧
    (cfg.jitter = true →
      ∃ f, 1 ≤ f ∧ f < 6 / 5 ∧
        _calculate_delay cfg attempt j =
          min (cfg.initial_delay * cfg.backoff_factor ^ attempt) cfg.max_delay * f) ∧
    0 ≤ _calculate_delay cfg attempt j ∧
    min (cfg.initial_delay * cfg.backoff_factor ^ attempt) cfg.max_delay ≤
      _calculate_delay cfg attempt j ∧
    _calculate_delay cfg attempt j ≤ cfg.max_delay * (6 / 5) := by
  have hb0 := base_delay_nonneg cfg h0 h1 h2 attempt
  have hlow := calculate_delay_lower cfg h0 h1 h2 attempt j hj0
  have hupp := calculate_delay_upper cfg h0 h1 h2 attempt j hj0 hj1
  refine ⟨?_, ?_, hb0.trans hlow, hlow, ?_⟩
  · intro hjit; unfold _calculate_delay; rw [hjit]; simp
  · intro hjit
    refine ⟨1 + (1 / 5) * j, by linarith, by linarith, ?_⟩
    unfold _calculate_delay; rw [hjit]; simp
  · calc _calculate_delay cfg attempt j ≤
        min (cfg.initial_delay * cfg.backoff_factor ^ attempt) cfg.max_delay * (6 / 5) := hupp
    _ ≤ cfg.max_delay * (6 / 5) :=
        mul_le_mul_of_nonneg_right (min_le_right _ _) (by norm_num)

/-- Witness for C3, at the repository's default configuration. -/
theorem calculate_delay_formula_witness :
    (0 ≤ (StatusPollingConfig.mk 1 32 2 10 300 true).initial_delay ∧
      (StatusPollingConfig.mk 1 32 2 10 300 true).initial_delay ≤
        (StatusPollingConfig.mk 1 32 2 10 300 true).max_delay ∧
      1 ≤ (StatusPollingConfig.mk 1 32 2 10 300 true).backoff_factor ∧
      0 ≤ (1 / 2 : ℚ) ∧ (1 / 2 : ℚ) < 1) ∧
    (0 ≤ _calculate_delay (StatusPollingConfig.mk 1 32 2 10 300 true) 3 (1 / 2) ∧
      _calculate_delay (StatusPollingConfig.mk 1 32 2 10 300 true) 3 (1 / 2) ≤
        (StatusPollingConfig.mk 1 32 2 10 300 true).max_delay * (6 / 5)) :=
  ⟨⟨by norm_num, by norm_num, by norm_num, by norm_num, by norm_num⟩,
    ((calculate_delay_formula (StatusPollingConfig.mk 1 32 2 10 300 true) 3 (1 / 2)
      (by norm_num) (by norm_num) (by norm_num) (by norm_num) (by norm_num)).2.2.1),
    ((calculate_delay_formula (StatusPollingConfig.mk 1 32 2 10 300 true) 3 (1 / 2)
      (by norm_num) (by norm_num) (by norm_num) (by norm_num) (by norm_num)).2.2.2.2)⟩

/-- C7: the delay sequence is monotonically non-decreasing in the attempt
number (exactly, when jitter is off; up to the 1.2 jitter bound in
general), saturates at `max_delay` once the exponential passes it, and
never exceeds `max_delay * 1.2`. -/
theorem calculate_delay_monotone (cfg : StatusPollingConfig)
    (h0 : 0 ≤ cfg.initial_delay) (h1 : cfg.initial_delay ≤ cfg.max_delay)
    (h2 : 1 ≤ cfg.backoff_factor) (i j : ℕ) (hij : i ≤ j)
    (ji jj : ℚ) (hji0 : 0 ≤ ji) (hji1 : ji < 1) (hjj0 : 0 ≤ jj) (hjj1 : jj < 1) :
    (cfg.jitter = false →
      _calculate_delay cfg i ji ≤ _calculate_delay cfg j jj) ∧
    _calculate_delay cfg i ji ≤ (6 / 5) * _calculate_delay cfg j jj ∧
    _calculate_delay cfg i ji ≤ cfg.max_delay * (6 / 5) ∧
    (cfg.max_delay ≤ cfg.initial_delay * cfg.backoff_factor ^ i →
      min (cfg.initial_delay * cfg.backoff_factor ^ j) cfg.max_delay = cfg.max_delay) := by
  have hbm := base_delay_mono cfg h0 h2 hij
  have hlowj := calculate_delay_lower cfg h0 h1 h2 j jj hjj0
  have huppi := calculate_delay_upper cfg h0 h1 h2 i ji hji0 hji1
  refine ⟨?_, ?_, ?_, ?_⟩
  · intro hjit
    have e1 : _calculate_delay cfg i ji =
        min (cfg.initial_delay * cfg.backoff_factor ^ i) cfg.max_delay := by
      unfold _calculate_delay; rw [hjit]; simp
    have e2 : _calculate_delay cfg j jj =
        min (cfg.initial_delay * cfg.backoff_factor ^ j) cfg.max_delay := by
      unfold _calculate_delay; rw [hjit]; simp
    rw [e1, e2]; exact hbm
  · calc _calculate_delay cfg i ji ≤
        min (cfg.initial_delay * cfg.backoff_factor ^ i) cfg.max_delay * (6 / 5) := huppi
    _ ≤ min (cfg.initial_delay * cfg.backoff_factor ^ j) cfg.max_delay * (6 / 5) :=
        mul_le_mul_of_nonneg_right hbm (by norm_num)
    _ = (6 / 5) * min (cfg.initial_delay * cfg.backoff_factor ^ j) cfg.max_delay := by ring
    _ ≤ (6 / 5) * _calculate_delay cfg j jj :=
        mul_le_mul_of_nonneg_left hlowj (by norm_num)
  · calc _calculate_delay cfg i ji ≤
        min (cfg.initial_delay * cfg.backoff_factor ^ i) cfg.max_delay * (6 / 5) := huppi
    _ ≤ cfg.max_delay * (6 / 5) :=
        mul_le_mul_of_nonneg_right (min_le_right _ _) (by norm_num)
  · intro hsat
    have : cfg.max_delay ≤ cfg.initial_delay * cfg.backoff_factor ^ j :=
      hsat.trans (mul_le_mul_of_nonneg_left (pow_le_pow_right₀ h2 hij) h0)
    exact min_eq_right this

/-- Witness for C7, at the repository's default configuration. -/
theorem calculate_delay_monotone_witness :
    (0 ≤ (StatusPollingConfig.mk 1 32 2 10 300 true).initial_delay ∧
      (StatusPollingConfig.mk 1 32 2 10 300 true).initial_delay ≤
        (StatusPollingConfig.mk 1 32 2 10 300 true).max_delay ∧
      1 ≤ (StatusPollingConfig.mk 1 32 2 10 300 true).backoff_factor ∧
      (2 : ℕ) ≤ 7 ∧ 0 ≤ (0 : ℚ) ∧ (0 : ℚ) < 1 ∧ 0 ≤ (1 / 2 : ℚ) ∧ (1 / 2 : ℚ) < 1) ∧
    _calculate_delay (StatusPollingConfig.mk 1 32 2 10 300 true) 2 0 ≤
      (6 / 5) * _calculate_delay (StatusPollingConfig.mk 1 32 2 10 300 true) 7 (1 / 2) :=
  ⟨⟨by norm_num, by norm_num, by norm_num, by norm_num, by norm_num, by norm_num,
      by norm_num, by norm_num⟩,
    (calculate_delay_monotone (StatusPollingConfig.mk 1 32 2 10 300 true)
      (by norm_num) (by norm_num) (by norm_num) 2 7 (by norm_num)
      0 (1 / 2) (by norm_num) (by norm_num) (by norm_num) (by norm_num)).2.1⟩

/-! ### C8: no state survives an invocation -/

lemma pollLoop_time_shift (cfg : StatusPollingConfig) (cb : Bool) (c : ℚ) :
    ∀ (env : List FetchStep) (dl now : ℚ) (attempt : ℕ) (ls : Option JobStatus),
      pollLoop cfg cb (dl + c) env (now + c) attempt ls =
        pollLoop cfg cb dl env now attempt ls := by
  intro env
  induction env with
  | nil =>
      intro dl now attempt ls
      rw [pollLoop, pollLoop]
      simp only [add_lt_add_iff_right]
  | cons step rest ih =>
      intro dl now attempt ls
      rw [pollLoop, pollLoop]
      simp only [add_lt_add_iff_right]
      by_cases hg : now < dl ∧ attempt < cfg.max_attempts
      · rw [if_pos hg, if_pos hg]
        cases hget : _get_status_once step with
        | ok r =>
            simp only
            by_cases hst : r.status = .completed ∨ r.status = .error
            · rw [if_pos hst, if_pos hst]
            · rw [if_neg hst, if_neg hst]
              have harg : now + c + step.duration +
                  _calculate_delay cfg (attempt + 1) step.jitterFrac =
                  now + step.duration +
                    _calculate_delay cfg (attempt + 1) step.jitterFrac + c := by ring
              rw [harg, ih]
        | error e =>
            simp only
            by_cases hce : e.isClientError = true
            · rw [if_pos hce, if_pos hce]
              by_cases hconn : e.isClientConnectionError = true
              · rw [if_pos hconn, if_pos hconn]
              · rw [if_neg hconn, if_neg hconn]
                have harg : now + c + step.duration +
                    _calculate_delay cfg attempt step.jitterFrac =
                    now + step.duration + _calculate_delay cfg attempt step.jitterFrac + c := by
                  ring
                rw [harg, ih]
            · rw [if_neg hce, if_neg hce]
      · rw [if_neg hg, if_neg hg]

/-- C8: `poll_until_complete` keeps no state across invocations: the
attempt counter, the last observed status and the deadline are created
fresh from the entry clock on every call, so two invocations of the same
client at arbitrary (different) start times, facing the same sequence of
remote responses, produce identical results and identical event traces.
(The embedding is a pure function of the client's configuration and the
environment because the Python method assigns to no field of `self`.) -/
theorem poll_stateless (cfg : StatusPollingConfig) (cb : Bool)
    (env : List FetchStep) (start start' : ℚ) :
    poll_until_complete cfg cb env start = poll_until_complete cfg cb env start' := by
  have key : ∀ s : ℚ, poll_until_complete cfg cb env s =
      pollLoop cfg cb cfg.timeout env 0 0 none := by
    intro s
    unfold poll_until_complete
    have := pollLoop_time_shift cfg cb s env cfg.timeout 0 0 none
    rw [zero_add, add_comm cfg.timeout s] at this
    rw [show s = 0 + s from (zero_add s).symm] at this
    simpa using this
  rw [key start, key start']

/-! ### C9: the two retry paths use different delay indices -/

/-- C9: with the attempt counter at `k` when the fetch starts, a fetch
that returns `pending` is followed by a sleep of
`_calculate_delay(k + 1)` (the counter is incremented before the wait),
while a retryable protocol failure is followed by a sleep of
`_calculate_delay(k)` (the wait happens before the increment); so the
wait after the very first pending fetch is based on
`initial_delay * backoff_factor`, not on `initial_delay`. -/
theorem backoff_schedule_asymmetric (cfg : StatusPollingConfig) (cb : Bool)
    (dl now : ℚ) (step : FetchStep) (rest : List FetchStep) (k : ℕ)
    (ls : Option JobStatus) (out : RunOutcome)
    (hg1 : now < dl) (hg2 : k < cfg.max_attempts)
    (h : pollLoop cfg cb dl (step :: rest) now k ls = some out) :
    (stepPending step →
      (sleepDelays out.events).head? =
        some (_calculate_delay cfg (k + 1) step.jitterFrac)) ∧
    (stepRetryable step →
      (sleepDelays out.events).head? =
        some (_calculate_delay cfg k step.jitterFrac)) ∧
    (cfg.jitter = false →
      _calculate_delay cfg 1 step.jitterFrac =
        min (cfg.initial_delay * cfg.backoff_factor) cfg.max_delay ∧
      _calculate_delay cfg 0 step.jitterFrac =
        min cfg.initial_delay cfg.max_delay) := by
  rw [pollLoop, if_pos ⟨hg1, hg2⟩] at h
  refine ⟨?_, ?_, ?_⟩
  · rintro ⟨r, hr, hrp⟩
    rw [hr] at h
    simp only at h
    rw [if_neg (by rw [hrp]; simp)] at h
    cases hrec : pollLoop cfg cb dl rest
        (now + step.duration + _calculate_delay cfg (k + 1) step.jitterFrac)
        (k + 1) (some r.status) with
    | none => rw [hrec] at h; cases h
    | some out' =>
        rw [hrec] at h
        cases h
        have hcb : sleepDelays (_handle_status_change cb r ls) = [] :=
          sleepDelays_handle_status_change cb r ls
        simp only [sleepDelays, List.filterMap_cons, List.filterMap_append] at hcb ⊢
        rw [hcb, List.nil_append, List.head?_cons]
  · rintro ⟨e, he, hce, hconn⟩
    rw [he] at h
    simp only at h
    rw [if_pos hce, if_neg (by rw [hconn]; simp)] at h
    cases hrec : pollLoop cfg cb dl rest
        (now + step.duration + _calculate_delay cfg k step.jitterFrac)
        (k + 1) ls with
    | none => rw [hrec] at h; cases h
    | some out' =>
        rw [hrec] at h
        cases h
        simp [sleepDelays]
  · intro hjit
    constructor
    · unfold _calculate_delay; rw [hjit]; simp
    · unfold _calculate_delay; rw [hjit]; simp

/-- Witness for C9: first fetch pending with the counter at 0; the first
sleep is `_calculate_delay(1) = min(initial_delay * backoff_factor,
max_delay) = 2`, not `initial_delay = 1`. -/
theorem backoff_schedule_asymmetric_witness :
    ((0 : ℚ) < 100 ∧ 0 < cfgW.max_attempts ∧
      pollLoop cfgW true 100 [stepPendingW, stepCompletedW] 0 0 none =
        some ⟨.returned ⟨.completed, some "completed", 1⟩,
          [.fetched (.ok ⟨.pending, some "pending", 1⟩),
           .callback ⟨.pending, some "pending", 1⟩, .slept 2,
           .fetched (.ok ⟨.completed, some "completed", 1⟩),
           .callback ⟨.completed, some "completed", 1⟩]⟩ ∧
      stepPending stepPendingW) ∧
    (sleepDelays [.fetched (.ok (⟨.pending, some "pending", 1⟩ : StatusResponse)),
        .callback ⟨.pending, some "pending", 1⟩, .slept 2,
        .fetched (.ok ⟨.completed, some "completed", 1⟩),
        .callback ⟨.completed, some "completed", 1⟩]).head? =
      some (_calculate_delay cfgW (0 + 1) stepPendingW.jitterFrac) := by
  have hrun : pollLoop cfgW true 100 [stepPendingW, stepCompletedW] 0 0 none =
      some ⟨.returned ⟨.completed, some "completed", 1⟩,
        [.fetched (.ok ⟨.pending, some "pending", 1⟩),
         .callback ⟨.pending, some "pending", 1⟩, .slept 2,
         .fetched (.ok ⟨.completed, some "completed", 1⟩),
         .callback ⟨.completed, some "completed", 1⟩]⟩ := by
    norm_num +decide [pollLoop, _get_status_once, JobStatus.ofString,
      _handle_status_change, _calculate_delay, cfgW, stepPendingW, stepCompletedW]
  have hp : stepPending stepPendingW :=
    ⟨⟨.pending, some "pending", 1⟩, by norm_num [_get_status_once, stepPendingW,
      JobStatus.ofString], rfl⟩
  exact ⟨⟨by norm_num, by norm_num [cfgW], hrun, hp⟩,
    (backoff_schedule_asymmetric cfgW true 100 0 stepPendingW [stepCompletedW] 0 none
      ⟨.returned ⟨.completed, some "completed", 1⟩,
        [.fetched (.ok ⟨.pending, some "pending", 1⟩),
         .callback ⟨.pending, some "pending", 1⟩, .slept 2,
         .fetched (.ok ⟨.completed, some "completed", 1⟩),
         .callback ⟨.completed, some "completed", 1⟩]⟩
      (by norm_num) (by norm_num [cfgW]) hrun).1 hp⟩

/-! ### C10: the budget guard runs only at the top of the loop -/

lemma status_not_terminal {s : JobStatus}
    (h : ¬(s = .completed ∨ s = .error)) : s = .pending := by
  cases s <;> tauto

lemma filter_retry_handle_status_change (cb : Bool) (r : StatusResponse)
    (ls : Option JobStatus) :
    (_handle_status_change cb r ls).filter Event.isRetryFetch = [] := by
  rcases handle_status_change_cases cb r ls with h | h <;> rw [h] <;> rfl

lemma pollLoop_sleep_count (cfg : StatusPollingConfig) (cb : Bool) (dl : ℚ) :
    ∀ (env : List FetchStep) (now : ℚ) (attempt : ℕ) (ls : Option JobStatus)
      (out : RunOutcome),
      pollLoop cfg cb dl env now attempt ls = some out →
      (sleepDelays out.events).length =
        (out.events.filter Event.isRetryFetch).length := by
  intro env
  induction env with
  | nil =>
      intro now attempt ls out h
      rw [pollLoop] at h
      split at h
      · cases h
      · cases h; rfl
  | cons step rest ih =>
      intro now attempt ls out h
      rw [pollLoop] at h
      split at h
      · cases hget : _get_status_once step with
        | ok r =>
            rw [hget] at h
            simp only at h
            by_cases hst : r.status = .completed ∨ r.status = .error
            · rw [if_pos hst] at h
              cases h
              have hcb := sleepDelays_handle_status_change cb r ls
              have hf := filter_retry_handle_status_change cb r ls
              have hnp : r.status ≠ JobStatus.pending := by
                rcases hst with hs | hs <;> rw [hs] <;> simp
              have hr : Event.isRetryFetch (.fetched (.ok r)) = false := by
                simp [Event.isRetryFetch, hnp]
              simp only [sleepDelays] at hcb ⊢
              simp [List.filter_cons, hr, hf, List.filterMap_cons, hcb]
            · rw [if_neg hst] at h
              have hrp := status_not_terminal hst
              cases hrec : pollLoop cfg cb dl rest
                  (now + step.duration + _calculate_delay cfg (attempt + 1) step.jitterFrac)
                  (attempt + 1) (some r.status) with
              | none => rw [hrec] at h; cases h
              | some out' =>
                  rw [hrec] at h
                  cases h
                  have hcb := sleepDelays_handle_status_change cb r ls
                  have hf := filter_retry_handle_status_change cb r ls
                  have hr : Event.isRetryFetch (.fetched (.ok r)) = true := by
                    simp [Event.isRetryFetch, hrp]
                  have hih := ih _ _ _ out' hrec
                  simp only [sleepDelays] at hcb hih ⊢
                  simp [List.filter_cons, List.filter_append, hr, hf,
                    List.filterMap_cons, List.filterMap_append, hcb, hih,
                    Event.isRetryFetch, hrp]
        | error e =>
            rw [hget] at h
            simp only at h
            by_cases hce : e.isClientError = true
            · rw [if_pos hce] at h
              by_cases hconn : e.isClientConnectionError = true
              · rw [if_pos hconn] at h
                cases h
                have hr : Event.isRetryFetch (.fetched (.error e)) = false := by
                  simp [Event.isRetryFetch, hconn]
                simp [sleepDelays, List.filter_cons, hr]
              · rw [if_neg hconn] at h
                cases hrec : pollLoop cfg cb dl rest
                    (now + step.duration + _calculate_delay cfg attempt step.jitterFrac)
                    (attempt + 1) ls with
                | none => rw [hrec] at h; cases h
                | some out' =>
                    rw [hrec] at h
                    cases h
                    have hr : Event.isRetryFetch (.fetched (.error e)) = true := by
                      simp [Event.isRetryFetch, hce, hconn]
                    have hih := ih _ _ _ out' hrec
                    simp only [sleepDelays] at hih ⊢
                    simp [List.filter_cons, hr, List.filterMap_cons, hih,
                      Event.isRetryFetch, hce, hconn]
            · rw [if_neg hce] at h
              cases h
              have hr : Event.isRetryFetch (.fetched (.error e)) = false := by
                simp [Event.isRetryFetch, hce]
              simp [sleepDelays, List.filter_cons, hr]
      · cases h; rfl

lemma pollLoop_timeout_ends_with_sleep (cfg : StatusPollingConfig) (cb : Bool) (dl : ℚ) :
    ∀ (env : List FetchStep) (now : ℚ) (attempt : ℕ) (ls : Option JobStatus)
      (out : RunOutcome),
      pollLoop cfg cb dl env now attempt ls = some out →
      out.result = .raised (.timeoutError cfg.timeout) →
      out.events ≠ [] →
      ∃ pre d, out.events = pre ++ [Event.slept d] := by
  intro env
  induction env with
  | nil =>
      intro now attempt ls out h _ hne
      rw [pollLoop] at h
      split at h
      · cases h
      · cases h; exact absurd rfl hne
  | cons step rest ih =>
      intro now attempt ls out h hres hne
      rw [pollLoop] at h
      split at h
      · cases hget : _get_status_once step with
        | ok r =>
            rw [hget] at h
            simp only at h
            by_cases hst : r.status = .completed ∨ r.status = .error
            · rw [if_pos hst] at h
              cases h
              simp at hres
            · rw [if_neg hst] at h
              cases hrec : pollLoop cfg cb dl rest
                  (now + step.duration + _calculate_delay cfg (attempt + 1) step.jitterFrac)
                  (attempt + 1) (some r.status) with
              | none => rw [hrec] at h; cases h
              | some out' =>
                  rw [hrec] at h
                  cases h
                  simp only at hres
                  by_cases hne' : out'.events = []
                  · refine ⟨.fetched (.ok r) :: _handle_status_change cb r ls,
                      _calculate_delay cfg (attempt + 1) step.jitterFrac, ?_⟩
                    simp [hne']
                  · obtain ⟨pre, d', hpre⟩ := ih _ _ _ out' hrec hres hne'
                    refine ⟨.fetched (.ok r) :: (_handle_status_change cb r ls ++
                      .slept (_calculate_delay cfg (attempt + 1) step.jitterFrac) :: pre),
                      d', ?_⟩
                    simp [hpre]
        | error e =>
            rw [hget] at h
            simp only at h
            by_cases hce : e.isClientError = true
            · rw [if_pos hce] at h
              by_cases hconn : e.isClientConnectionError = true
              · rw [if_pos hconn] at h
                cases h
                simp only at hres
                injection hres with hres'
                obtain rfl : e = .clientConnectionError := by
                  cases e <;> simp_all [PyError.isClientConnectionError]
                cases hres'
              · rw [if_neg hconn] at h
                cases hrec : pollLoop cfg cb dl rest
                    (now + step.duration + _calculate_delay cfg attempt step.jitterFrac)
                    (attempt + 1) ls with
                | none => rw [hrec] at h; cases h
                | some out' =>
                    rw [hrec] at h
                    cases h
                    simp only at hres
                    by_cases hne' : out'.events = []
                    · exact ⟨[.fetched (.error e)],
                        _calculate_delay cfg attempt step.jitterFrac, by simp [hne']⟩
                    · obtain ⟨pre, d', hpre⟩ := ih _ _ _ out' hrec hres hne'
                      exact ⟨.fetched (.error e) ::
                        .slept (_calculate_delay cfg attempt step.jitterFrac) :: pre,
                        d', by simp [hpre]⟩
            · rw [if_neg hce] at h
              cases h
              simp only at hres
              injection hres with hres'
              exact absurd hres' (get_status_once_no_timeout step e cfg.timeout hget)
      · cases h; exact absurd rfl hne

/-- C10: the deadline/attempt-cap guard is evaluated only at the top of
the polling loop: every fetch whose outcome sends the loop around again
(a `pending` response or a retryable protocol failure) is followed by
its full backoff sleep — the number of sleeps equals the number of such
fetches — and when the run ends in a Timeout with at least one fetch
performed, the final trace event is a backoff sleep. -/
theorem guard_only_at_loop_top (cfg : StatusPollingConfig) (cb : Bool)
    (env : List FetchStep) (start : ℚ) (out : RunOutcome)
    (h : poll_until_complete cfg cb env start = some out) :
    (sleepDelays out.events).length =
      (out.events.filter Event.isRetryFetch).length ∧
    (out.result = .raised (.timeoutError cfg.timeout) → out.events ≠ [] →
      ∃ pre d, out.events = pre ++ [Event.slept d]) :=
  ⟨pollLoop_sleep_count cfg cb (start + cfg.timeout) env start 0 none out h,
   pollLoop_timeout_ends_with_sleep cfg cb (start + cfg.timeout) env start 0 none out h⟩

/-- Witness for C10: one pending fetch under `max_attempts = 1`; the
incremented counter already equals the cap, yet the full sleep happens
and the Timeout is raised only after it, as the trace's final event. -/
theorem guard_only_at_loop_top_witness :
    poll_until_complete (StatusPollingConfig.mk 1 4 2 1 100 false) true [stepPendingW] 0 =
      some ⟨.raised (.timeoutError 100),
        [.fetched (.ok ⟨.pending, some "pending", 1⟩),
         .callback ⟨.pending, some "pending", 1⟩, .slept 2]⟩ ∧
    (sleepDelays [.fetched (.ok (⟨.pending, some "pending", 1⟩ : StatusResponse)),
        .callback ⟨.pending, some "pending", 1⟩, .slept 2]).length =
      ([.fetched (.ok (⟨.pending, some "pending", 1⟩ : StatusResponse)),
        .callback ⟨.pending, some "pending", 1⟩,
        .slept (2 : ℚ)].filter Event.isRetryFetch).length ∧
    ∃ pre d, [Event.fetched (.ok (⟨.pending, some "pending", 1⟩ : StatusResponse)),
        .callback ⟨.pending, some "pending", 1⟩, .slept (2 : ℚ)] =
      pre ++ [Event.slept d] := by
  have hrun : poll_until_complete (StatusPollingConfig.mk 1 4 2 1 100 false) true
      [stepPendingW] 0 =
      some ⟨.raised (.timeoutError 100),
        [.fetched (.ok ⟨.pending, some "pending", 1⟩),
         .callback ⟨.pending, some "pending", 1⟩, .slept 2]⟩ := by
    norm_num +decide [poll_until_complete, pollLoop, _get_status_once, JobStatus.ofString,
      _handle_status_change, _calculate_delay, stepPendingW]
  have hmain := guard_only_at_loop_top (StatusPollingConfig.mk 1 4 2 1 100 false) true
    [stepPendingW] 0
    ⟨.raised (.timeoutError 100),
      [.fetched (.ok ⟨.pending, some "pending", 1⟩),
       .callback ⟨.pending, some "pending", 1⟩, .slept 2]⟩ hrun
  exact ⟨hrun, hmain.1, hmain.2 rfl (by simp)⟩

/-! ### C2: the Timeout error and the polling budget -/

/-- Total wall-clock time spent in the fetch calls of an environment
prefix. -/
def sumDurations (env : List FetchStep) : ℚ := (env.map FetchStep.duration).sum

lemma fetchCount_cons_run (cb : Bool) (r : StatusResponse) (ls : Option JobStatus)
    (x : Except PyError StatusResponse) (d : ℚ) (tail : List Event) :
    fetchCount (Event.fetched x :: (_handle_status_change cb r ls ++
      Event.slept d :: tail)) = fetchCount tail + 1 := by
  have h0 := fetchCount_handle_status_change cb r ls
  simp only [fetchCount] at h0 ⊢
  simp [List.filter_cons, List.filter_append, List.length_eq_zero.mp h0]

lemma sleepDelays_cons_run (cb : Bool) (r : StatusResponse) (ls : Option JobStatus)
    (x : Except PyError StatusResponse) (d : ℚ) (tail : List Event) :
    sleepDelays (Event.fetched x :: (_handle_status_change cb r ls ++
      Event.slept d :: tail)) = d :: sleepDelays tail := by
  have h0 := sleepDelays_handle_status_change cb r ls
  simp only [sleepDelays] at h0 ⊢
  simp [List.filterMap_cons, List.filterMap_append, h0]

lemma pollLoop_timeout_char (cfg : StatusPollingConfig) (cb : Bool) (dl : ℚ) :
    ∀ (env : List FetchStep) (now : ℚ) (attempt : ℕ) (ls : Option JobStatus)
      (out : RunOutcome) (q : ℚ),
      pollLoop cfg cb dl env now attempt ls = some out →
      out.result = .raised (.timeoutError q) →
      q = cfg.timeout ∧
      (∀ r, Event.fetched (.ok r) ∈ out.events → r.status = .pending) ∧
      (dl ≤ now + sumDurations (env.take (fetchCount out.events)) +
          (sleepDelays out.events).sum ∨
        cfg.max_attempts ≤ attempt + fetchCount out.events) := by
  intro env
  induction env with
  | nil =>
      intro now attempt ls out q h hres
      rw [pollLoop] at h
      split at h
      · cases h
      · rename_i hg
        cases h
        simp only at hres
        injection hres with hres'
        injection hres' with hq
        refine ⟨hq.symm, by simp, ?_⟩
        rcases not_and_or.mp hg with hg1 | hg2
        · left
          simp only [fetchCount, sumDurations, sleepDelays, List.filter_nil,
            List.filterMap_nil, List.length_nil, List.take_nil, List.take_zero,
            List.map_nil, List.sum_nil, add_zero]
          exact not_lt.mp hg1
        · right
          simp only [fetchCount, List.filter_nil, List.length_nil, add_zero]
          exact not_lt.mp hg2
  | cons step rest ih =>
      intro now attempt ls out q h hres
      rw [pollLoop] at h
      split at h
      · cases hget : _get_status_once step with
        | ok r =>
            rw [hget] at h
            simp only at h
            by_cases hst : r.status = .completed ∨ r.status = .error
            · rw [if_pos hst] at h
              cases h
              simp at hres
            · rw [if_neg hst] at h
              have hrp := status_not_terminal hst
              cases hrec : pollLoop cfg cb dl rest
                  (now + step.duration + _calculate_delay cfg (attempt + 1) step.jitterFrac)
                  (attempt + 1) (some r.status) with
              | none => rw [hrec] at h; cases h
              | some out' =>
                  rw [hrec] at h
                  cases h
                  simp only at hres
                  obtain ⟨hq, hpend', hbud'⟩ := ih _ _ _ out' q hrec hres
                  refine ⟨hq, ?_, ?_⟩
                  · intro r' hmem
                    simp only at hmem
                    rcases List.mem_cons.mp hmem with heq | hmem'
                    · obtain rfl : r' = r := by injection heq with h1; injection h1
                      exact hrp
                    · rcases List.mem_append.mp hmem' with hc | ht
                      · exact absurd (mem_handle_status_change hc) (by simp)
                      · rcases List.mem_cons.mp ht with heq | ht'
                        · cases heq
                        · exact hpend' r' ht'
                  · have hfc := fetchCount_cons_run cb r ls (.ok r)
                      (_calculate_delay cfg (attempt + 1) step.jitterFrac) out'.events
                    have hsd := sleepDelays_cons_run cb r ls (.ok r)
                      (_calculate_delay cfg (attempt + 1) step.jitterFrac) out'.events
                    simp only [hfc, hsd]
                    rcases hbud' with hb | hb
                    · left
                      rw [List.take_succ_cons]
                      simp only [sumDurations, List.map_cons, List.sum_cons, List.sum_cons]
                      have : dl ≤ now + step.duration +
                          _calculate_delay cfg (attempt + 1) step.jitterFrac +
                          sumDurations (rest.take (fetchCount out'.events)) +
                          (sleepDelays out'.events).sum := hb
                      simp only [sumDurations] at this
                      linarith
                    · right; omega
        | error e =>
            rw [hget] at h
            simp only at h
            by_cases hce : e.isClientError = true
            · rw [if_pos hce] at h
              by_cases hconn : e.isClientConnectionError = true
              · rw [if_pos hconn] at h
                cases h
                simp only at hres
                injection hres with hres'
                exact absurd hres'.symm
                  (fun hh => get_status_once_no_timeout step e q hget hh.symm)
              · rw [if_neg hconn] at h
                cases hrec : pollLoop cfg cb dl rest
                    (now + step.duration + _calculate_delay cfg attempt step.jitterFrac)
                    (attempt + 1) ls with
                | none => rw [hrec] at h; cases h
                | some out' =>
                    rw [hrec] at h
                    cases h
                    simp only at hres
                    obtain ⟨hq, hpend', hbud'⟩ := ih _ _ _ out' q hrec hres
                    refine ⟨hq, ?_, ?_⟩
                    · intro r' hmem
                      simp only at hmem
                      rcases List.mem_cons.mp hmem with heq | hmem'
                      · cases heq
                      · rcases List.mem_cons.mp hmem' with heq | ht
                        · cases heq
                        · exact hpend' r' ht
                    · have hfc : fetchCount (Event.fetched (.error e) ::
                          Event.slept (_calculate_delay cfg attempt step.jitterFrac) ::
                          out'.events) = fetchCount out'.events + 1 := by
                        simp [fetchCount, List.filter_cons]
                      have hsd : sleepDelays (Event.fetched (.error e) ::
                          Event.slept (_calculate_delay cfg attempt step.jitterFrac) ::
                          out'.events) =
                          _calculate_delay cfg attempt step.jitterFrac ::
                            sleepDelays out'.events := by
                        simp [sleepDelays, List.filterMap_cons]
                      simp only [hfc, hsd]
                      rcases hbud' with hb | hb
                      · left
                        rw [List.take_succ_cons]
                        simp only [sumDurations, List.map_cons, List.sum_cons]
                        have : dl ≤ now + step.duration +
                            _calculate_delay cfg attempt step.jitterFrac +
                            sumDurations (rest.take (fetchCount out'.events)) +
                            (sleepDelays out'.events).sum := hb
                        simp only [sumDurations] at this
                        linarith
                      · right; omega
            · rw [if_neg hce] at h
              cases h
              simp only at hres
              injection hres with hres'
              exact absurd hres'.symm
                (fun hh => get_status_once_no_timeout step e q hget hh.symm)
      · rename_i hg
        cases h
        simp only at hres
        injection hres with hres'
        injection hres' with hq
        refine ⟨hq.symm, by simp, ?_⟩
        rcases not_and_or.mp hg with hg1 | hg2
        · left
          simp only [fetchCount, sumDurations, sleepDelays, List.filter_nil,
            List.filterMap_nil, List.length_nil, List.take_nil, List.take_zero,
            List.map_nil, List.sum_nil, add_zero]
          exact not_lt.mp hg1
        · right
          simp only [fetchCount, List.filter_nil, List.length_nil, add_zero]
          exact not_lt.mp hg2

lemma pollLoop_exhausts (cfg : StatusPollingConfig) (cb : Bool) (dl : ℚ) :
    ∀ (env : List FetchStep) (now : ℚ) (attempt : ℕ) (ls : Option JobStatus),
      (∀ s ∈ env, stepPending s ∨ stepRetryable s) →
      cfg.max_attempts ≤ attempt + env.length →
      ∃ out, pollLoop cfg cb dl env now attempt ls = some out ∧
        out.result = .raised (.timeoutError cfg.timeout) := by
  intro env
  induction env with
  | nil =>
      intro now attempt ls _ hlen
      rw [pollLoop]
      rw [if_neg (by intro hcon; simp at hlen; omega)]
      exact ⟨_, rfl, rfl⟩
  | cons step rest ih =>
      intro now attempt ls hsteps hlen
      rw [pollLoop]
      by_cases hg : now < dl ∧ attempt < cfg.max_attempts
      · rw [if_pos hg]
        rcases hsteps step (List.mem_cons_self step rest) with
            ⟨r, hr, hrp⟩ | ⟨e, he, hce, hconn⟩
        · rw [hr]
          simp only
          rw [if_neg (by rw [hrp]; simp)]
          obtain ⟨out', hrec, hres⟩ := ih
            (now + step.duration + _calculate_delay cfg (attempt + 1) step.jitterFrac)
            (attempt + 1) (some r.status)
            (fun s hs => hsteps s (List.mem_cons_of_mem step hs))
            (by simp at hlen ⊢; omega)
          rw [hrec]
          exact ⟨_, rfl, hres⟩
        · rw [he]
          simp only
          rw [if_pos hce, if_neg (by rw [hconn]; simp)]
          obtain ⟨out', hrec, hres⟩ := ih
            (now + step.duration + _calculate_delay cfg attempt step.jitterFrac)
            (attempt + 1) ls
            (fun s hs => hsteps s (List.mem_cons_of_mem step hs))
            (by simp at hlen ⊢; omega)
          rw [hrec]
          exact ⟨_, rfl, hres⟩
      · rw [if_neg hg]
        exact ⟨_, rfl, rfl⟩

/-- C2: the run raises a `TimeoutError` naming the configured timeout if
and only if the polling budget is exhausted while the job is still
pending: whenever a Timeout is raised, every successful fetch of the run
reported `pending` and either the elapsed time (fetch durations plus
backoff sleeps) reached `config.timeout` or the number of fetches
reached `config.max_attempts`; conversely, an environment with no
terminal and no fatal outcome, long enough for the attempt cap, always
ends in that Timeout. -/
theorem timeout_iff_budget_exhausted (cfg : StatusPollingConfig) (cb : Bool)
    (env : List FetchStep) (start : ℚ) (out : RunOutcome)
    (h : poll_until_complete cfg cb env start = some out) :
    (∀ q, out.result = .raised (.timeoutError q) →
      q = cfg.timeout ∧
      (∀ r, Event.fetched (.ok r) ∈ out.events → r.status = .pending) ∧
      (cfg.timeout ≤ sumDurations (env.take (fetchCount out.events)) +
          (sleepDelays out.events).sum ∨
        cfg.max_attempts ≤ fetchCount out.events)) ∧
    ((∀ s ∈ env, stepPending s ∨ stepRetryable s) →
      cfg.max_attempts ≤ env.length →
      out.result = .raised (.timeoutError cfg.timeout)) := by
  constructor
  · intro q hres
    obtain ⟨hq, hpend, hbud⟩ :=
      pollLoop_timeout_char cfg cb (start + cfg.timeout) env start 0 none out q h hres
    refine ⟨hq, hpend, ?_⟩
    rcases hbud with hb | hb
    · exact Or.inl (by linarith)
    · exact Or.inr (by omega)
  · intro hsteps hlen
    obtain ⟨out', hrec, hres⟩ :=
      pollLoop_exhausts cfg cb (start + cfg.timeout) env start 0 none hsteps
        (by omega)
    rw [poll_until_complete] at h
    rw [h] at hrec
    cases hrec
    exact hres

/-- Witness for C2: one pending fetch under `max_attempts = 1`; the run
raises `TimeoutError(100)` with the attempt cap reached. -/
theorem timeout_iff_budget_exhausted_witness :
    poll_until_complete (StatusPollingConfig.mk 1 4 2 1 100 false) true [stepPendingW] 0 =
      some ⟨.raised (.timeoutError 100),
        [.fetched (.ok ⟨.pending, some "pending", 1⟩),
         .callback ⟨.pending, some "pending", 1⟩, .slept 2]⟩ ∧
    (100 : ℚ) = (StatusPollingConfig.mk 1 4 2 1 100 false).timeout ∧
    (StatusPollingConfig.mk 1 4 2 1 100 false).max_attempts ≤
      fetchCount [.fetched (.ok (⟨.pending, some "pending", 1⟩ : StatusResponse)),
        .callback ⟨.pending, some "pending", 1⟩, .slept (2 : ℚ)] := by
  have hrun : poll_until_complete (StatusPollingConfig.mk 1 4 2 1 100 false) true
      [stepPendingW] 0 =
      some ⟨.raised (.timeoutError 100),
        [.fetched (.ok ⟨.pending, some "pending", 1⟩),
         .callback ⟨.pending, some "pending", 1⟩, .slept 2]⟩ := by
    norm_num +decide [poll_until_complete, pollLoop, _get_status_once, JobStatus.ofString,
      _handle_status_change, _calculate_delay, stepPendingW]
  have hmain := (timeout_iff_budget_exhausted (StatusPollingConfig.mk 1 4 2 1 100 false)
    true [stepPendingW] 0
    ⟨.raised (.timeoutError 100),
      [.fetched (.ok ⟨.pending, some "pending", 1⟩),
       .callback ⟨.pending, some "pending", 1⟩, .slept 2]⟩ hrun).1 100 rfl
  refine ⟨hrun, hmain.1, ?_⟩
  rcases hmain.2.2 with hb | hb
  · exfalso
    simp [sumDurations, sleepDelays, fetchCount, stepPendingW] at hb
    norm_num at hb
  · exact hb

/-! ### C6: N pending fetches then completed -/

lemma callbackResponses_handle_none (r : StatusResponse) :
    _handle_status_change true r none = [.callback r] := by
  unfold _handle_status_change
  rw [if_pos ⟨by simp, rfl⟩]

lemma handle_same_status (r : StatusResponse) :
    _handle_status_change true r (some r.status) = [] := by
  unfold _handle_status_change
  rw [if_neg (by simp)]

lemma pollLoop_pending_then_completed (cfg : StatusPollingConfig) (dl : ℚ)
    (lastStep : FetchStep) (rLast : StatusResponse)
    (hlast : _get_status_once lastStep = .ok rLast) (hcomp : rLast.status = .completed) :
    ∀ (pendSteps : List FetchStep) (now : ℚ) (attempt : ℕ),
      (∀ s ∈ pendSteps, stepPending s) →
      attempt + pendSteps.length < cfg.max_attempts →
      timeBudgetOK cfg dl pendSteps now attempt = true →
      ∃ out, pollLoop cfg true dl (pendSteps ++ [lastStep]) now attempt
          (some .pending) = some out ∧
        out.result = .returned rLast ∧
        fetchCount out.events = pendSteps.length + 1 ∧
        callbackResponses out.events = [rLast] := by
  intro pendSteps
  induction pendSteps with
  | nil =>
      intro now attempt _ hatt htb
      rw [timeBudgetOK] at htb
      have hnow : now < dl := of_decide_eq_true htb
      rw [List.nil_append, pollLoop, if_pos ⟨hnow, by simpa using hatt⟩, hlast]
      simp only
      rw [if_pos (Or.inl hcomp)]
      have hcb : _handle_status_change true rLast (some JobStatus.pending) =
          [.callback rLast] := by
        unfold _handle_status_change
        rw [if_pos ⟨by rw [hcomp]; simp, rfl⟩]
      refine ⟨_, rfl, rfl, ?_, ?_⟩
      · rw [hcb]; rfl
      · rw [hcb]; rfl
  | cons s rest ih =>
      intro now attempt hpend hatt htb
      rw [timeBudgetOK, Bool.and_eq_true] at htb
      obtain ⟨htb1, htb2⟩ := htb
      have hnow : now < dl := of_decide_eq_true htb1
      obtain ⟨r, hr, hrp⟩ := hpend s (List.mem_cons_self s rest)
      rw [List.cons_append, pollLoop,
        if_pos ⟨hnow, by simp at hatt; omega⟩, hr]
      simp only
      rw [if_neg (by rw [hrp]; simp)]
      have hcb : _handle_status_change true r (some JobStatus.pending) = [] := by
        rw [show (JobStatus.pending : JobStatus) = r.status from hrp.symm]
        exact handle_same_status r
      obtain ⟨out', hrec, hres, hfc, hcr⟩ := ih
        (now + s.duration + _calculate_delay cfg (attempt + 1) s.jitterFrac)
        (attempt + 1)
        (fun x hx => hpend x (List.mem_cons_of_mem s hx))
        (by simp at hatt ⊢; omega) htb2
      rw [hrp, hrec]
      refine ⟨_, rfl, hres, ?_, ?_⟩
      · rw [show RunOutcome.events ⟨out'.result, .fetched (.ok r) ::
            (_handle_status_change true r (some .pending) ++
              .slept (_calculate_delay cfg (attempt + 1) s.jitterFrac) ::
                out'.events)⟩ = .fetched (.ok r) ::
            (_handle_status_change true r (some .pending) ++
              .slept (_calculate_delay cfg (attempt + 1) s.jitterFrac) ::
                out'.events) from rfl, hcb]
        simp only [fetchCount] at hfc ⊢
        simp [List.filter_cons, hfc]
      · rw [show RunOutcome.events ⟨out'.result, .fetched (.ok r) ::
            (_handle_status_change true r (some .pending) ++
              .slept (_calculate_delay cfg (attempt + 1) s.jitterFrac) ::
                out'.events)⟩ = .fetched (.ok r) ::
            (_handle_status_change true r (some .pending) ++
              .slept (_calculate_delay cfg (attempt + 1) s.jitterFrac) ::
                out'.events) from rfl, hcb]
        simp only [callbackResponses] at hcr ⊢
        simp [List.filterMap_cons, hcr]

/-- C6: if the budget admits N+1 fetches (N below the attempt cap and
the clock below the deadline before every fetch), the remote reports
`pending` on exactly the first N fetches (N ≥ 1) and `completed` on the
next, and a callback is set, then the run performs exactly N+1 fetches,
returns the `completed` response, and invokes the callback exactly
twice: first with a pending response, then with the completed one. -/
theorem pending_then_completed_run (cfg : StatusPollingConfig) (N : ℕ) (hN : 0 < N)
    (pendSteps : List FetchStep) (hlen : pendSteps.length = N)
    (hpend : ∀ s ∈ pendSteps, stepPending s)
    (lastStep : FetchStep) (rLast : StatusResponse)
    (hlast : _get_status_once lastStep = .ok rLast) (hcomp : rLast.status = .completed)
    (hatt : N < cfg.max_attempts) (start : ℚ)
    (htime : timeBudgetOK cfg (start + cfg.timeout) pendSteps start 0 = true) :
    ∃ out r0,
      poll_until_complete cfg true (pendSteps ++ [lastStep]) start = some out ∧
      out.result = .returned rLast ∧
      fetchCount out.events = N + 1 ∧
      callbackResponses out.events = [r0, rLast] ∧
      r0.status = .pending := by
  cases pendSteps with
  | nil => simp at hlen; omega
  | cons s rest =>
      rw [timeBudgetOK, Bool.and_eq_true] at htime
      obtain ⟨htb1, htb2⟩ := htime
      have hnow : start < start + cfg.timeout := of_decide_eq_true htb1
      obtain ⟨r0, hr0, hr0p⟩ := hpend s (List.mem_cons_self s rest)
      rw [poll_until_complete, List.cons_append, pollLoop,
        if_pos ⟨hnow, by simp at hlen; omega⟩, hr0]
      simp only
      rw [if_neg (by rw [hr0p]; simp)]
      obtain ⟨out', hrec, hres, hfc, hcr⟩ :=
        pollLoop_pending_then_completed cfg (start + cfg.timeout) lastStep rLast
          hlast hcomp rest
          (start + s.duration + _calculate_delay cfg (0 + 1) s.jitterFrac) (0 + 1)
          (fun x hx => hpend x (List.mem_cons_of_mem s hx))
          (by simp at hlen ⊢; omega) htb2
      rw [hr0p, hrec]
      refine ⟨_, r0, rfl, hres, ?_, ?_, hr0p⟩
      · rw [callbackResponses_handle_none r0]
        simp only [fetchCount] at hfc ⊢
        rw [List.length_cons] at hlen
        simp [List.filter_cons, hfc]
        omega
      · rw [callbackResponses_handle_none r0]
        simp only [callbackResponses] at hcr ⊢
        simp [List.filterMap_cons, hcr]

/-- Witness for C6, with N = 1: one pending fetch then one completed
fetch, two fetches total, callback invoked with pending then completed. -/
theorem pending_then_completed_run_witness :
    ((0 : ℕ) < 1 ∧ [stepPendingW].length = 1 ∧
      stepPending stepPendingW ∧
      _get_status_once stepCompletedW =
        .ok ⟨.completed, some "completed", 1⟩ ∧
      (1 : ℕ) < cfgW.max_attempts ∧
      timeBudgetOK cfgW ((0 : ℚ) + cfgW.timeout) [stepPendingW] 0 0 = true) ∧
    ∃ out r0,
      poll_until_complete cfgW true ([stepPendingW] ++ [stepCompletedW]) 0 = some out ∧
      out.result = .returned ⟨.completed, some "completed", 1⟩ ∧
      fetchCount out.events = 1 + 1 ∧
      callbackResponses out.events = [r0, ⟨.completed, some "completed", 1⟩] ∧
      r0.status = .pending := by
  have h1 : stepPending stepPendingW :=
    ⟨⟨.pending, some "pending", 1⟩,
      by norm_num [_get_status_once, stepPendingW, JobStatus.ofString], rfl⟩
  have h2 : _get_status_once stepCompletedW = .ok ⟨.completed, some "completed", 1⟩ := by
    norm_num [_get_status_once, stepCompletedW, JobStatus.ofString]
  have h3 : timeBudgetOK cfgW ((0 : ℚ) + cfgW.timeout) [stepPendingW] 0 0 = true := by
    norm_num [timeBudgetOK, _calculate_delay, cfgW, stepPendingW]
  refine ⟨⟨by norm_num, by norm_num, h1, h2, by norm_num [cfgW], h3⟩, ?_⟩
  exact pending_then_completed_run cfgW 1 (by norm_num) [stepPendingW] (by norm_num)
    (by intro s hs; rw [List.mem_singleton] at hs; rw [hs]; exact h1)
    stepCompletedW ⟨.completed, some "completed", 1⟩ h2 rfl
    (by norm_num [cfgW]) 0 h3

end VideoTranslation
